import Mathlib

/-
Verification of the peer-to-peer chain synchronization protocol handler
(substrate network protocol.rs) against its natural-language specification.

The Rust source is shallowly embedded: machine integers become Nat with
explicit wrap where the source wraps, HashMap becomes an association list,
HashSet becomes a list with membership-guarded insertion, and every
side-effecting call to an outside collaborator (SyncIo, ChainSync,
Consensus, Specialization, TransactionPool) is recorded as an Event in an
output trace.  Collaborator callbacks that receive a Context and may push
outbound actions are parameterized by the list of actions they push; those
actions are flushed through the same send_message path as in the source.
A process panic (the unimplemented arms of on_block_request) is modelled
as the Option value none.
-/

namespace SubstrateNetwork

abbrev PeerId := Nat
abbrev HeaderHash := Nat
abbrev ExtrinsicHash := Nat
abbrev BlockNumber := Nat
abbrev RequestId := Nat
abbrev Tx := Nat

/-- Value of u32::max_value() in the source clamp. -/
def u32max : Nat := 4294967295

/-- Modulus of the u64 request-id counter. -/
def u64size : Nat := 18446744073709551616

/-- REQUEST_TIMEOUT_SEC = 40 from the source. -/
def REQUEST_TIMEOUT_SEC : Nat := 40

/-- CURRENT_VERSION = 1 from the source. -/
def CURRENT_VERSION : Nat := 1

/-- MAX_BLOCK_DATA_RESPONSE = 128 from the source. -/
def MAX_BLOCK_DATA_RESPONSE : Nat := 128

/-- Header; the hhash field models the blake2_256 header hash computed by
the source helper header_hash (hashing itself is out of scope, so the
hash value is carried with the header). -/
structure Header where
  parent_hash : HeaderHash
  number : BlockNumber
  state_root : Nat
  extrinsics_root : Nat
  hhash : HeaderHash
deriving DecidableEq, Repr

/-- Models header_hash(header) = blake2_256 of the encoded header. -/
def header_hash (h : Header) : HeaderHash := h.hhash

/-- BlockId: lookup key for the chain, either a hash or a number. -/
inductive BlockId where
  | hash (h : HeaderHash)
  | number (n : BlockNumber)
deriving DecidableEq, Repr

/-- message::BlockAttribute. -/
inductive BlockAttribute where
  | Header
  | Body
  | Receipt
  | MessageQueue
  | Justification
deriving DecidableEq, Repr

/-- message::Direction. -/
inductive Direction where
  | Ascending
  | Descending
deriving DecidableEq, Repr

/-- message::FromBlock. -/
inductive FromBlock where
  | hash (h : HeaderHash)
  | number (n : BlockNumber)
deriving DecidableEq, Repr

/-- message::BlockRequest (the Rust fields named from and to are
fromBlock and toBlock here). -/
structure BlockRequest where
  id : RequestId
  fields : List BlockAttribute
  fromBlock : FromBlock
  toBlock : Option HeaderHash
  direction : Direction
  max : Option Nat
deriving DecidableEq, Repr

/-- message::BlockData. -/
structure BlockData where
  hash : HeaderHash
  header : Option Header
  body : Option (List Tx)
  receipt : Option Nat
  message_queue : Option Nat
  justification : Option Nat
deriving DecidableEq, Repr

/-- message::BlockResponse. -/
structure BlockResponse where
  id : RequestId
  blocks : List BlockData
deriving DecidableEq, Repr

/-- message::Status. -/
structure Status where
  version : Nat
  roles : List Nat
  best_number : BlockNumber
  best_hash : HeaderHash
  genesis_hash : HeaderHash
  authority_signature : Option Nat
  authority_id : Option Nat
  chain_status : List Nat
deriving DecidableEq, Repr

/-- message::BlockAnnounce. -/
structure BlockAnnounce where
  header : Header
deriving DecidableEq, Repr

/-- message::Message union. -/
inductive Message where
  | Status (s : Status)
  | BlockRequest (r : BlockRequest)
  | BlockResponse (r : BlockResponse)
  | BlockAnnounce (a : BlockAnnounce)
  | BftMessage (m : Nat)
  | Extrinsics (ts : List Tx)
  | ChainSpecific (d : List Nat)
deriving DecidableEq, Repr

/-- Per-peer state (struct Peer).  Timestamps are Nat seconds. -/
structure Peer where
  protocol_version : Nat
  roles : Nat
  best_hash : HeaderHash
  best_number : BlockNumber
  block_request : Option BlockRequest
  request_timestamp : Option Nat
  known_extrinsics : List ExtrinsicHash
  known_blocks : List HeaderHash
  next_request_id : RequestId
deriving DecidableEq, Repr

/-- SyncState as observed through sync.status().state. -/
inductive SyncState where
  | Idle
  | Downloading
deriving DecidableEq, Repr

/-- Outbound actions buffered in a Context by collaborator callbacks. -/
inductive Action where
  | message (pid : PeerId) (m : Message)
  | disconnect (pid : PeerId)
  | disable (pid : PeerId)
deriving DecidableEq, Repr

/-- Observable calls to the outside collaborators (SyncIo, ChainSync,
Consensus, Specialization, TransactionPool). -/
inductive Event where
  | send (pid : PeerId) (m : Message)
  | ioDisconnect (pid : PeerId)
  | ioDisable (pid : PeerId)
  | syncNewPeer (pid : PeerId)
  | syncPeerDisconnected (pid : PeerId)
  | syncOnBlockData (pid : PeerId) (req : BlockRequest) (resp : BlockResponse)
  | syncOnBlockAnnounce (pid : PeerId) (h : HeaderHash)
  | syncUpdateChainInfo
  | syncClear
  | consensusNewPeer (pid : PeerId) (roles : List Nat)
  | consensusPeerDisconnected (pid : PeerId)
  | consensusOnBftMessage (pid : PeerId) (m : Nat)
  | consensusCollectGarbage
  | consensusRestart
  | specializationOnMessage (pid : PeerId) (d : List Nat)
  | poolImport (t : Tx)
deriving DecidableEq, Repr

/-- Chain collaborator (chain::Client): read-only lookups; an Err result
is indistinguishable from None in the source (unwrap_or(None)). -/
structure Client where
  info : Option (HeaderHash × HeaderHash × BlockNumber)
  header : BlockId → Option Header
  body : BlockId → Option (List Tx)
  justification : BlockId → Option Nat

/-- TransactionPool collaborator. -/
structure TransactionPool where
  importTx : Tx → Option ExtrinsicHash
  transactions : List (ExtrinsicHash × Tx)

/-- Protocol state: the tables that Protocol owns, plus the constants it
captured at construction and the visible sync status. -/
structure Protocol where
  genesis_hash : HeaderHash
  config_roles : List Nat
  chain_status : List Nat
  peers : List (PeerId × Peer)
  handshaking_peers : List (PeerId × Nat)
  sync_state : SyncState
deriving DecidableEq, Repr

/- Association-list operations modelling HashMap. -/

/-- Lookup by key (first matching entry). -/
def alLookup {β : Type} : List (Nat × β) → Nat → Option β
  | [], _ => none
  | (k, v) :: rest, key => if k = key then some v else alLookup rest key

/-- In-place modification of the entry at a key (HashMap get_mut). -/
def alUpdate {β : Type} (l : List (Nat × β)) (k : Nat) (f : β → β) : List (Nat × β) :=
  l.map (fun kv => if kv.1 = k then (kv.1, f kv.2) else kv)

/-- Removal of a key (HashMap remove). -/
def alRemove {β : Type} (l : List (Nat × β)) (k : Nat) : List (Nat × β) :=
  l.filter (fun kv => kv.1 != k)

/-- Insertion of a key (HashMap insert: replaces any existing entry). -/
def alInsert {β : Type} (l : List (Nat × β)) (k : Nat) (v : β) : List (Nat × β) :=
  (k, v) :: alRemove l k

/-- HashSet insert: adds the element when it is not yet present. -/
def hsInsert (h : Nat) (s : List Nat) : List Nat :=
  if h ∈ s then s else h :: s

/-- Role::as_flags: fold the role list into a bit flag word. -/
def role_as_flags (roles : List Nat) : Nat :=
  roles.foldl (fun acc r => acc ||| r) 0

/- The free function send_message (protocol.rs bottom): an outbound
BlockRequest is stamped with the peer's next_request_id, the counter is
bumped (u64 wrap), and the stamped request plus the current timestamp are
stored in the peer.  Other messages pass through unchanged.  A transport
error only triggers io.disconnect_peer and touches no protocol state; it
is outside the modelled trace. -/
def send_message (peers : List (PeerId × Peer)) (now : Nat) (pid : PeerId)
    (m : Message) : List (PeerId × Peer) × List Event :=
  match m with
  | .BlockRequest r =>
    match alLookup peers pid with
    | none => (peers, [.send pid (.BlockRequest r)])
    | some peer =>
      (alUpdate peers pid (fun p =>
        { p with
          block_request := some { r with id := p.next_request_id },
          request_timestamp := some now,
          next_request_id := (p.next_request_id + 1) % u64size }),
       [.send pid (.BlockRequest { r with id := peer.next_request_id })])
  | m' => (peers, [.send pid m'])

/-- Flushing of a Context action buffer on scope exit (Drop for Context):
actions run in insertion order; a message action re-enters send_message. -/
def flush_actions (peers : List (PeerId × Peer)) (now : Nat) :
    List Action → List (PeerId × Peer) × List Event
  | [] => (peers, [])
  | .message pid m :: rest =>
    let r1 := send_message peers now pid m
    let r2 := flush_actions r1.1 now rest
    (r2.1, r1.2 ++ r2.2)
  | .disconnect pid :: rest =>
    let r := flush_actions peers now rest
    (r.1, .ioDisconnect pid :: r.2)
  | .disable pid :: rest =>
    let r := flush_actions peers now rest
    (r.1, .ioDisable pid :: r.2)

/- BlockServer (on_block_request). -/

/-- Resolution of the starting block identifier. -/
def resolve_from : FromBlock → BlockId
  | .hash h => BlockId.hash h
  | .number n => BlockId.number n

/-- The field-mask parse loop of on_block_request.  Receipt and
MessageQueue hit an unimplemented arm in the source, which aborts the
process; that is the none result. -/
def parse_fields : List BlockAttribute → Bool → Bool → Bool →
    Option (Bool × Bool × Bool)
  | [], gh, gb, gj => some (gh, gb, gj)
  | .Header :: rest, _, gb, gj => parse_fields rest true gb gj
  | .Body :: rest, gh, _, gj => parse_fields rest gh true gj
  | .Justification :: rest, gh, gb, _ => parse_fields rest gh gb true
  | .Receipt :: _, _, _, _ => none
  | .MessageQueue :: _, _, _, _ => none

/-- The BlockData assembled for one served header. -/
def mk_block_data (chain : Client) (gh gb gj : Bool) (header : Header) : BlockData :=
  { hash := header_hash header,
    header := if gh then some header else none,
    body := if gb then chain.body (BlockId.hash (header_hash header)) else none,
    receipt := none,
    message_queue := none,
    justification := if gj then chain.justification (BlockId.hash (header_hash header)) else none }

/-- The while-let serving loop of on_block_request, with the accumulated
block list kept in source (reversed) order and a fuel argument that only
bounds the recursion; with fuel maxB + 1 it never runs out before the
length check fires. -/
def serve_loop (chain : Client) (gh gb gj : Bool) (dir : Direction) (maxB : Nat) :
    Nat → BlockId → List BlockData → List BlockData
  | 0, _, blocks => blocks.reverse
  | fuel + 1, id, blocks =>
    match chain.header id with
    | none => blocks.reverse
    | some header =>
      if maxB ≤ blocks.length then blocks.reverse
      else
        let bd := mk_block_data chain gh gb gj header
        match dir with
        | .Ascending =>
          serve_loop chain gh gb gj dir maxB fuel (.number (header.number + 1)) (bd :: blocks)
        | .Descending =>
          if header.number = 0 then (bd :: blocks).reverse
          else serve_loop chain gh gb gj dir maxB fuel (.number (header.number - 1)) (bd :: blocks)

/-- on_block_request: clamp, parse the mask (none = process abort), walk
the chain, send exactly one BlockResponse echoing the request id. -/
def on_block_request (chain : Client) (s : Protocol) (now : Nat) (peer : PeerId)
    (request : BlockRequest) : Option (Protocol × List Event) :=
  let id0 := resolve_from request.fromBlock
  let maxB := min (request.max.getD u32max) MAX_BLOCK_DATA_RESPONSE
  match parse_fields request.fields false false false with
  | none => none
  | some (gh, gb, gj) =>
    let blocks := serve_loop chain gh gb gj request.direction maxB (maxB + 1) id0 []
    let response : BlockResponse := { id := request.id, blocks := blocks }
    let r := send_message s.peers now peer (.BlockResponse response)
    some ({ s with peers := r.1 }, r.2)

/- StatusHandshake (on_status_message). -/

/-- The Peer record inserted on a successful status handshake. -/
def mk_fresh_peer (status : Status) : Peer :=
  { protocol_version := status.version,
    roles := role_as_flags status.roles,
    best_hash := status.best_hash,
    best_number := status.best_number,
    block_request := none,
    request_timestamp := none,
    known_extrinsics := [],
    known_blocks := [],
    next_request_id := 0 }

/-- on_status_message; acts are the actions pushed into the Context by
sync.new_peer and consensus.new_peer, flushed when the Context drops. -/
def on_status_message (s : Protocol) (now : Nat) (expired : Bool) (pid : PeerId)
    (status : Status) (acts : List Action) : Protocol × List Event :=
  if expired then (s, [])
  else if (alLookup s.peers pid).isSome then (s, [])
  else if status.genesis_hash ≠ s.genesis_hash then (s, [.ioDisable pid])
  else if status.version ≠ CURRENT_VERSION then (s, [.ioDisable pid])
  else
    let peers1 := alInsert s.peers pid (mk_fresh_peer status)
    let hs1 := alRemove s.handshaking_peers pid
    let r := flush_actions peers1 now acts
    ({ s with peers := r.1, handshaking_peers := hs1 },
     [.syncNewPeer pid, .consensusNewPeer pid status.roles] ++ r.2)

/-- on_block_response: forward the correlated pair to ChainSync. -/
def on_block_response (s : Protocol) (now : Nat) (pid : PeerId)
    (request : BlockRequest) (response : BlockResponse) (acts : List Action) :
    Protocol × List Event :=
  let r := flush_actions s.peers now acts
  ({ s with peers := r.1 }, .syncOnBlockData pid request response :: r.2)

/-- on_bft_message: forward to Consensus. -/
def on_bft_message (s : Protocol) (now : Nat) (pid : PeerId) (m : Nat)
    (acts : List Action) : Protocol × List Event :=
  let r := flush_actions s.peers now acts
  ({ s with peers := r.1 }, .consensusOnBftMessage pid m :: r.2)

/-- on_chain_specific: forward to the Specialization. -/
def on_chain_specific (s : Protocol) (now : Nat) (pid : PeerId) (d : List Nat)
    (acts : List Action) : Protocol × List Event :=
  let r := flush_actions s.peers now acts
  ({ s with peers := r.1 }, .specializationOnMessage pid d :: r.2)

/-- on_block_announce: record the announced hash in the sender's
known_blocks set, then forward to ChainSync. -/
def on_block_announce (s : Protocol) (now : Nat) (pid : PeerId)
    (announce : BlockAnnounce) (acts : List Action) : Protocol × List Event :=
  let hash := header_hash announce.header
  let peers1 := alUpdate s.peers pid (fun p =>
    { p with known_blocks := hsInsert hash p.known_blocks })
  let r := flush_actions peers1 now acts
  ({ s with peers := r.1 }, .syncOnBlockAnnounce pid hash :: r.2)

/-- The pool-import loop of on_extrinsics: every carried extrinsic is
offered to the pool (traced as poolImport); an accepted hash enters the
sending peer's known set. -/
def import_loop (pool : TransactionPool) : List Tx → List ExtrinsicHash →
    List ExtrinsicHash × List Event
  | [], known => (known, [])
  | t :: rest, known =>
    let known1 := match pool.importTx t with
      | some h => hsInsert h known
      | none => known
    let r := import_loop pool rest known1
    (r.1, .poolImport t :: r.2)

/-- on_extrinsics: accepted only when fully synced and only from a peer
present in the active table. -/
def on_extrinsics (pool : TransactionPool) (s : Protocol) (pid : PeerId)
    (txs : List Tx) : Protocol × List Event :=
  if s.sync_state ≠ SyncState.Idle then (s, [])
  else
    match alLookup s.peers pid with
    | none => (s, [])
    | some peer =>
      let r := import_loop pool txs peer.known_extrinsics
      ({ s with peers := alUpdate s.peers pid (fun p => { p with known_extrinsics := r.1 }) },
       r.2)

/-- The filter_map of propagate_extrinsics over one peer: walk the pool
snapshot, inserting every unseen hash into the known set and collecting
the corresponding transactions to send. -/
def filter_new : List (ExtrinsicHash × Tx) → List ExtrinsicHash →
    List ExtrinsicHash × List Tx
  | [], known => (known, [])
  | (h, t) :: rest, known =>
    if h ∈ known then filter_new rest known
    else
      let r := filter_new rest (h :: known)
      (r.1, t :: r.2)

/-- The per-peer loop of propagate_extrinsics; a non-empty subset is sent
as a single Extrinsics message (Extrinsics messages are not stamped by
send_message, so only the trace grows). -/
def propagate_loop (txs : List (ExtrinsicHash × Tx)) :
    List (PeerId × Peer) → List (PeerId × Peer) × List Event
  | [] => ([], [])
  | (pid, p) :: rest =>
    let fr := filter_new txs p.known_extrinsics
    let r := propagate_loop txs rest
    ((pid, { p with known_extrinsics := fr.1 }) :: r.1,
     (if fr.2.isEmpty then [] else [.send pid (.Extrinsics fr.2)]) ++ r.2)

/-- propagate_extrinsics, gated on the Idle sync state. -/
def propagate_extrinsics (pool : TransactionPool) (s : Protocol) :
    Protocol × List Event :=
  if s.sync_state ≠ SyncState.Idle then (s, [])
  else
    let r := propagate_loop pool.transactions s.peers
    ({ s with peers := r.1 }, r.2)

/-- The announcement loop of on_block_imported. -/
def announce_loop (hash : HeaderHash) (header : Header) :
    List (PeerId × Peer) → List (PeerId × Peer) × List Event
  | [] => ([], [])
  | (pid, p) :: rest =>
    let r := announce_loop hash header rest
    if hash ∈ p.known_blocks then ((pid, p) :: r.1, r.2)
    else
      ((pid, { p with known_blocks := hash :: p.known_blocks }) :: r.1,
       .send pid (.BlockAnnounce { header := header }) :: r.2)

/-- on_block_imported: update sync chain info, announce to unaware peers,
run a consensus garbage pass. -/
def on_block_imported (s : Protocol) (hash : HeaderHash) (header : Header) :
    Protocol × List Event :=
  let r := announce_loop hash header s.peers
  ({ s with peers := r.1 },
   .syncUpdateChainInfo :: r.2 ++ [.consensusCollectGarbage])

/-- send_status, invoked by on_peer_connected. -/
def send_status (chain : Client) (s : Protocol) (now : Nat) (pid : PeerId) :
    List (PeerId × Peer) × List Event :=
  match chain.info with
  | none => (s.peers, [])
  | some info =>
    send_message s.peers now pid (.Status
      { version := CURRENT_VERSION,
        genesis_hash := info.1,
        roles := s.config_roles,
        best_number := info.2.2,
        best_hash := info.2.1,
        authority_signature := none,
        authority_id := none,
        chain_status := s.chain_status })

/-- on_peer_connected: record the handshake timestamp and send Status. -/
def on_peer_connected (chain : Client) (s : Protocol) (now : Nat) (pid : PeerId) :
    Protocol × List Event :=
  let s1 := { s with handshaking_peers := alInsert s.handshaking_peers pid now }
  let r := send_status chain s1 now pid
  ({ s1 with peers := r.1 }, r.2)

/-- on_peer_disconnected: drop the peer from both tables; when it was
active, notify Consensus then Sync (acts are the actions those callbacks
push into the shared Context). -/
def on_peer_disconnected (s : Protocol) (now : Nat) (pid : PeerId)
    (acts : List Action) : Protocol × List Event :=
  let removed := (alLookup s.peers pid).isSome
  let s1 := { s with peers := alRemove s.peers pid,
                     handshaking_peers := alRemove s.handshaking_peers pid }
  if removed then
    let r := flush_actions s1.peers now acts
    ({ s1 with peers := r.1 },
     [.consensusPeerDisconnected pid, .syncPeerDisconnected pid] ++ r.2)
  else (s1, [])

/-- The timeout predicate of maintain_peers: strictly more than
REQUEST_TIMEOUT_SEC seconds elapsed. -/
def timed_out (now ts : Nat) : Bool := REQUEST_TIMEOUT_SEC < now - ts

/-- The victim collection of maintain_peers: active peers with a request
timestamp chained with the handshaking peers, filtered by timeout. -/
def collect_victims (s : Protocol) (now : Nat) : List PeerId :=
  ((s.peers.filterMap (fun pp => pp.2.request_timestamp.map (fun ts => (pp.1, ts))))
      ++ s.handshaking_peers).filterMap
    (fun pt => if timed_out now pt.2 then some pt.1 else none)

/-- The abort loop of maintain_peers: on_peer_disconnected for every
victim, in collection order; cb gives the actions the Consensus and Sync
callbacks push for each peer. -/
def disconnect_loop (now : Nat) (cb : PeerId → List Action) :
    Protocol → List PeerId → Protocol × List Event
  | s, [] => (s, [])
  | s, pid :: rest =>
    let r1 := on_peer_disconnected s now pid (cb pid)
    let r2 := disconnect_loop now cb r1.1 rest
    (r2.1, r1.2 ++ r2.2)

/-- maintain_peers: disconnect every timed-out peer, then run the abort
loop (io.disconnect_peer is issued for each victim during collection). -/
def maintain_peers (s : Protocol) (now : Nat) (cb : PeerId → List Action) :
    Protocol × List Event :=
  let victims := collect_victims s now
  let r := disconnect_loop now cb s victims
  (r.1, victims.map Event.ioDisconnect ++ r.2)

/-- tick: timeout maintenance plus a consensus garbage pass. -/
def tick (s : Protocol) (now : Nat) (cb : PeerId → List Action) :
    Protocol × List Event :=
  let r := maintain_peers s now cb
  (r.1, r.2 ++ [.consensusCollectGarbage])

/-- abort: clear Sync, both tables, restart Consensus. -/
def abort (s : Protocol) : Protocol × List Event :=
  ({ s with peers := [], handshaking_peers := [] },
   [.syncClear, .consensusRestart])

/-- The public Protocol::send_message entry point. -/
def protocol_send_message (s : Protocol) (now : Nat) (pid : PeerId) (m : Message) :
    Protocol × List Event :=
  let r := send_message s.peers now pid m
  ({ s with peers := r.1 }, r.2)

/-- handle_packet: decode (none = malformed, disable) and dispatch.  The
none result models the process abort reachable through on_block_request.
acts are the actions the invoked collaborator callback pushes into its
Context. -/
def handle_packet (chain : Client) (pool : TransactionPool) (s : Protocol)
    (now : Nat) (expired : Bool) (pid : PeerId) (data : Option Message)
    (acts : List Action) : Option (Protocol × List Event) :=
  match data with
  | none => some (s, [.ioDisable pid])
  | some m =>
    match m with
    | .Status st => some (on_status_message s now expired pid st acts)
    | .BlockRequest r => on_block_request chain s now pid r
    | .BlockResponse r =>
      match alLookup s.peers pid with
      | none => some (s, [.ioDisable pid])
      | some peer =>
        let peers1 := alUpdate s.peers pid (fun q =>
          { q with request_timestamp := none, block_request := none })
        match peer.block_request with
        | none => some ({ s with peers := peers1 }, [.ioDisable pid])
        | some request =>
          if request.id ≠ r.id then some ({ s with peers := peers1 }, [])
          else some (on_block_response { s with peers := peers1 } now pid request r acts)
    | .BlockAnnounce a => some (on_block_announce s now pid a acts)
    | .BftMessage m' => some (on_bft_message s now pid m' acts)
    | .Extrinsics txs => some (on_extrinsics pool s pid txs)
    | .ChainSpecific d => some (on_chain_specific s now pid d acts)

/- Specification-side definitions (used to state refinement claims). -/

/-- Specification-side description of the BlockServer walk, following the
spec wording: starting from the resolved id, load the header (absent
header truncates), emit a BlockData carrying the requested subset with
the hash always populated, advance Ascending to number + 1 and Descending
to number - 1 terminating after emitting block number 0, and stop when
the clamped maximum (the fuel here) is reached.  The emitted BlockData is
shared with the code side (mk_block_data), which already matches the spec
sentence about the subset. -/
def specWalk (chain : Client) (gh gb gj : Bool) (dir : Direction) :
    Nat → BlockId → List BlockData
  | 0, _ => []
  | remaining + 1, id =>
    match chain.header id with
    | none => []
    | some header =>
      let bd := mk_block_data chain gh gb gj header
      match dir with
      | .Ascending => bd :: specWalk chain gh gb gj dir remaining (.number (header.number + 1))
      | .Descending =>
        if header.number = 0 then [bd]
        else bd :: specWalk chain gh gb gj dir remaining (.number (header.number - 1))

/- Invariant definitions (spec section 8, invariant 1). -/

/-- A peer's outstanding request and its timestamp are present together. -/
def invPeer (p : Peer) : Prop :=
  p.block_request.isSome = p.request_timestamp.isSome

instance (p : Peer) : Decidable (invPeer p) :=
  inferInstanceAs (Decidable (_ = _))

/-- Every peer of a table satisfies invPeer. -/
def InvTable (l : List (PeerId × Peer)) : Prop :=
  ∀ pp ∈ l, invPeer pp.2

instance (l : List (PeerId × Peer)) : Decidable (InvTable l) :=
  List.decidableBAll _ l

/-- The request/timestamp invariant over the whole protocol state. -/
def Inv (s : Protocol) : Prop := InvTable s.peers

instance (s : Protocol) : Decidable (Inv s) :=
  inferInstanceAs (Decidable (InvTable s.peers))

/-- Number of occurrences of an event in a trace. -/
def countEvent (e : Event) : List Event → Nat
  | [] => 0
  | x :: xs => (if x = e then 1 else 0) + countEvent e xs

/-- The events a Context flush can produce (sends and io-level calls). -/
def isIoEvent : Event → Bool
  | .send _ _ => true
  | .ioDisconnect _ => true
  | .ioDisable _ => true
  | _ => false

/- Concrete instances used by witnesses and counterexamples. -/

/-- A chain with no blocks at all. -/
def chain0 : Client :=
  { info := none, header := fun _ => none, body := fun _ => none,
    justification := fun _ => none }

/-- A chain holding headers at numbers 0, 1, 2 (hash 100 + n). -/
def chainW : Client :=
  { info := some (0, 102, 2),
    header := fun id => match id with
      | .number n => if n ≤ 2 then
          some { parent_hash := 0, number := n, state_root := 0,
                 extrinsics_root := 0, hhash := 100 + n }
        else none
      | .hash _ => none,
    body := fun _ => none,
    justification := fun _ => none }

/-- A pool that accepts nothing and holds nothing. -/
def pool0 : TransactionPool :=
  { importTx := fun _ => none, transactions := [] }

/-- An empty protocol state. -/
def s0 : Protocol :=
  { genesis_hash := 0, config_roles := [], chain_status := [],
    peers := [], handshaking_peers := [], sync_state := .Idle }

/-- A peer with no outstanding request and empty known sets. -/
def pE : Peer :=
  { protocol_version := 1, roles := 0, best_hash := 0, best_number := 0,
    block_request := none, request_timestamp := none,
    known_extrinsics := [], known_blocks := [], next_request_id := 0 }

/-- An outstanding block request with id 7. -/
def req7 : BlockRequest :=
  { id := 7, fields := [.Header], fromBlock := .number 0, toBlock := none,
    direction := .Ascending, max := some 1 }

/-- The peer of the C1 scenario: outstanding request id 7, timestamp 5. -/
def p1c : Peer :=
  { pE with block_request := some req7, request_timestamp := some 5,
            next_request_id := 8 }

/-- State with the C1 peer active under id 1. -/
def s1c : Protocol := { s0 with peers := [(1, p1c)] }

/-- A response with id 8 (mismatching the outstanding id 7). -/
def resp8 : BlockResponse := { id := 8, blocks := [] }

/-- A block request whose mask holds the reserved Receipt attribute. -/
def reqR : BlockRequest :=
  { id := 0, fields := [.Receipt], fromBlock := .number 0, toBlock := none,
    direction := .Ascending, max := none }

/-- A block request whose mask holds the reserved MessageQueue attribute. -/
def reqMQ : BlockRequest :=
  { id := 3, fields := [.Header, .MessageQueue], fromBlock := .number 1,
    toBlock := none, direction := .Descending, max := some 5 }

/-- A header-only ascending request from block 0, max 3. -/
def reqW : BlockRequest :=
  { id := 7, fields := [.Header], fromBlock := .number 0, toBlock := none,
    direction := .Ascending, max := some 3 }

/-- A pool holding one transaction, hash 99. -/
def pool3 : TransactionPool :=
  { importTx := fun _ => none, transactions := [(99, 7)] }

/-- Downloading-state protocol with one active peer. -/
def s3 : Protocol := { s0 with peers := [(1, pE)], sync_state := .Downloading }

/-- Idle-state protocol with one active peer. -/
def s3w : Protocol := { s0 with peers := [(1, pE)] }

/-- A pool holding one transaction, hash 42. -/
def pool3w : TransactionPool :=
  { importTx := fun _ => none, transactions := [(42, 9)] }

/-- The C3 witness peer after propagation. -/
def pEafter : Peer := { pE with known_extrinsics := [42] }

/-- A status matching s0 (genesis 0, version 1). -/
def stOk : Status :=
  { version := 1, roles := [1], best_number := 3, best_hash := 103,
    genesis_hash := 0, authority_signature := none, authority_id := none,
    chain_status := [] }

/-- A status with a mismatching genesis hash. -/
def stBad : Status := { stOk with genesis_hash := 77 }

/-- The peer of the C8 scenario: outstanding request stamped at time 5. -/
def p8 : Peer :=
  { pE with block_request := some req7, request_timestamp := some 5 }

/-- State for the C8 scenario: one active peer with a stale request and
one stale handshaking peer. -/
def s8 : Protocol :=
  { s0 with peers := [(1, p8)], handshaking_peers := [(2, 3)] }

/- Association-list lemmas. -/

theorem alLookup_mem {β : Type} {l : List (Nat × β)} {k : Nat} {v : β}
    (h : alLookup l k = some v) : (k, v) ∈ l := by
  induction l with
  | nil => simp [alLookup] at h
  | cons hd tl ih =>
    obtain ⟨k1, v1⟩ := hd
    by_cases hk : k1 = k
    · subst hk
      simp [alLookup] at h
      subst h
      exact List.mem_cons_self _ _
    · simp [alLookup, hk] at h
      exact List.mem_cons_of_mem _ (ih h)

theorem alLookup_alRemove {β : Type} (l : List (Nat × β)) (k key : Nat) :
    alLookup (alRemove l k) key = if key = k then none else alLookup l key := by
  induction l with
  | nil => simp [alRemove, alLookup]
  | cons hd tl ih =>
    obtain ⟨k1, v1⟩ := hd
    by_cases h1 : k1 = k
    · subst h1
      have hf : alRemove ((k1, v1) :: tl) k1 = alRemove tl k1 := by
        simp [alRemove]
      rw [hf, ih]
      by_cases h2 : key = k1
      · simp [h2]
      · have h2' : ¬ k1 = key := fun h => h2 h.symm
        simp [h2, alLookup, h2']
    · have hf : alRemove ((k1, v1) :: tl) k = (k1, v1) :: alRemove tl k := by
        simp [alRemove, h1]
      rw [hf]
      by_cases h2 : k1 = key
      · have hkey : ¬ key = k := fun h => h1 (h2.trans h)
        simp [alLookup, h2, hkey]
      · simp [alLookup, h2, ih]

theorem alLookup_alInsert_self {β : Type} (l : List (Nat × β)) (k : Nat) (v : β) :
    alLookup (alInsert l k v) k = some v := by
  simp [alInsert, alLookup]

theorem alLookup_alUpdate {β : Type} (l : List (Nat × β)) (k : Nat) (f : β → β)
    (key : Nat) :
    alLookup (alUpdate l k f) key
      = if key = k then (alLookup l key).map f else alLookup l key := by
  induction l with
  | nil => simp [alUpdate, alLookup]
  | cons hd tl ih =>
    obtain ⟨k1, v1⟩ := hd
    have hmap : alUpdate ((k1, v1) :: tl) k f
        = (if k1 = k then (k1, f v1) else (k1, v1)) :: alUpdate tl k f := by
      simp [alUpdate]
    rw [hmap]
    by_cases h1 : k1 = k
    · rw [if_pos h1]
      subst h1
      by_cases h2 : k1 = key
      · subst h2
        simp [alLookup]
      · have h2' : ¬ key = k1 := fun h => h2 h.symm
        simp [alLookup, h2, h2', ih]
    · rw [if_neg h1]
      by_cases h2 : k1 = key
      · have hkey : ¬ key = k := fun h => h1 (h2.trans h)
        simp [alLookup, h2, hkey]
      · simp [alLookup, h2, ih]

theorem alUpdate_absent {β : Type} {l : List (Nat × β)} {k : Nat} (f : β → β)
    (h : alLookup l k = none) : alUpdate l k f = l := by
  induction l with
  | nil => rfl
  | cons hd tl ih =>
    obtain ⟨k1, v1⟩ := hd
    by_cases hk : k1 = k
    · simp [alLookup, hk] at h
    · simp [alLookup, hk] at h
      simp [alUpdate, hk] at ih ⊢
      exact ih h

theorem alLookup_alUpdate_isSome {β : Type} (l : List (Nat × β)) (k : Nat)
    (f : β → β) (key : Nat) :
    (alLookup (alUpdate l k f) key).isSome = (alLookup l key).isSome := by
  rw [alLookup_alUpdate]
  by_cases h : key = k
  · simp [h]
  · simp [h]

/- Event-count lemmas. -/

theorem countEvent_append (e : Event) (l1 l2 : List Event) :
    countEvent e (l1 ++ l2) = countEvent e l1 + countEvent e l2 := by
  induction l1 with
  | nil => simp [countEvent]
  | cons x xs ih => simp [countEvent, ih, Nat.add_assoc]

theorem countEvent_eq_zero {e : Event} {l : List Event}
    (h : ∀ x ∈ l, x ≠ e) : countEvent e l = 0 := by
  induction l with
  | nil => rfl
  | cons x xs ih =>
    have hx : ¬ x = e := h x (List.mem_cons_self _ _)
    simp [countEvent, hx]
    exact ih (fun y hy => h y (List.mem_cons_of_mem _ hy))

/- send_message and flush_actions lemmas. -/

theorem send_message_events (peers : List (PeerId × Peer)) (now : Nat)
    (pid : PeerId) (m : Message) :
    ∃ m', (send_message peers now pid m).2 = [Event.send pid m'] := by
  cases m with
  | BlockRequest r =>
    cases h : alLookup peers pid with
    | none => exact ⟨.BlockRequest r, by simp [send_message, h]⟩
    | some peer =>
      exact ⟨.BlockRequest { r with id := peer.next_request_id },
        by simp [send_message, h]⟩
  | Status st => exact ⟨_, rfl⟩
  | BlockResponse r => exact ⟨_, rfl⟩
  | BlockAnnounce a => exact ⟨_, rfl⟩
  | BftMessage m => exact ⟨_, rfl⟩
  | Extrinsics ts => exact ⟨_, rfl⟩
  | ChainSpecific d => exact ⟨_, rfl⟩

theorem flush_actions_events_io (now : Nat) (acts : List Action) :
    ∀ peers, ∀ e ∈ (flush_actions peers now acts).2, isIoEvent e = true := by
  induction acts with
  | nil => intro peers e he; simp [flush_actions] at he
  | cons a rest ih =>
    cases a with
    | message pid m =>
      intro peers e he
      simp only [flush_actions] at he
      rcases List.mem_append.1 he with h1 | h2
      · obtain ⟨m', hm⟩ := send_message_events peers now pid m
        rw [hm] at h1
        simp at h1
        subst h1
        rfl
      · exact ih _ e h2
    | disconnect pid =>
      intro peers e he
      simp only [flush_actions] at he
      rcases List.mem_cons.1 he with rfl | h2
      · rfl
      · exact ih _ e h2
    | disable pid =>
      intro peers e he
      simp only [flush_actions] at he
      rcases List.mem_cons.1 he with rfl | h2
      · rfl
      · exact ih _ e h2

theorem send_message_lookup_isSome (peers : List (PeerId × Peer)) (now : Nat)
    (pid : PeerId) (m : Message) (key : Nat) :
    (alLookup (send_message peers now pid m).1 key).isSome
      = (alLookup peers key).isSome := by
  cases m with
  | BlockRequest r =>
    cases h : alLookup peers pid with
    | none => simp [send_message, h]
    | some peer => simp [send_message, h, alLookup_alUpdate_isSome]
  | Status st => rfl
  | BlockResponse r => rfl
  | BlockAnnounce a => rfl
  | BftMessage m => rfl
  | Extrinsics ts => rfl
  | ChainSpecific d => rfl

theorem flush_actions_lookup_isSome (now : Nat) (acts : List Action) :
    ∀ peers key, (alLookup (flush_actions peers now acts).1 key).isSome
      = (alLookup peers key).isSome := by
  induction acts with
  | nil => intro peers key; rfl
  | cons a rest ih =>
    cases a with
    | message pid m =>
      intro peers key
      simp only [flush_actions]
      rw [ih, send_message_lookup_isSome]
    | disconnect pid => intro peers key; simp only [flush_actions]; rw [ih]
    | disable pid => intro peers key; simp only [flush_actions]; rw [ih]

theorem flush_actions_lookup_none {now : Nat} {acts : List Action}
    {peers : List (PeerId × Peer)} {key : Nat}
    (h : alLookup peers key = none) :
    alLookup (flush_actions peers now acts).1 key = none := by
  have := flush_actions_lookup_isSome now acts peers key
  rw [h] at this
  simp at this
  exact Option.not_isSome_iff_eq_none.1 (by simp [this])

/- BlockServer lemmas. -/

theorem parse_fields_none : ∀ {fields : List BlockAttribute},
    (BlockAttribute.Receipt ∈ fields ∨ BlockAttribute.MessageQueue ∈ fields) →
    ∀ a b c, parse_fields fields a b c = none := by
  intro fields
  induction fields with
  | nil => intro h; rcases h with h | h <;> simp at h
  | cons x rest ih =>
    intro h a b c
    cases x with
    | Receipt => rfl
    | MessageQueue => rfl
    | Header =>
      refine ih ?_ true b c
      rcases h with h | h
      · simp at h; exact Or.inl h
      · simp at h; exact Or.inr h
    | Body =>
      refine ih ?_ a true c
      rcases h with h | h
      · simp at h; exact Or.inl h
      · simp at h; exact Or.inr h
    | Justification =>
      refine ih ?_ a b true
      rcases h with h | h
      · simp at h; exact Or.inl h
      · simp at h; exact Or.inr h

theorem parse_fields_some : ∀ {fields : List BlockAttribute} (a b c : Bool),
    (∀ x ∈ fields, x = BlockAttribute.Header ∨ x = BlockAttribute.Body
        ∨ x = BlockAttribute.Justification) →
    ∃ gh gb gj, parse_fields fields a b c = some (gh, gb, gj) := by
  intro fields
  induction fields with
  | nil => intro a b c _; exact ⟨a, b, c, rfl⟩
  | cons x rest ih =>
    intro a b c h
    have hx := h x (List.mem_cons_self _ _)
    have hrest := fun y hy => h y (List.mem_cons_of_mem _ hy)
    rcases hx with rfl | rfl | rfl
    · exact ih true b c hrest
    · exact ih a true c hrest
    · exact ih a b true hrest

theorem specWalk_length (chain : Client) (gh gb gj : Bool) (dir : Direction) :
    ∀ fuel id, (specWalk chain gh gb gj dir fuel id).length ≤ fuel := by
  intro fuel
  induction fuel with
  | zero => intro id; simp [specWalk]
  | succ n ih =>
    intro id
    simp only [specWalk]
    cases hh : chain.header id with
    | none => simp
    | some header =>
      cases dir with
      | Ascending =>
        simp only [List.length_cons]
        exact Nat.succ_le_succ (ih _)
      | Descending =>
        by_cases h0 : header.number = 0
        · simp [h0]
        · simp only [h0, if_false]
          simp only [List.length_cons]
          exact Nat.succ_le_succ (ih _)

theorem serve_loop_eq_specWalk (chain : Client) (gh gb gj : Bool)
    (dir : Direction) (maxB : Nat) :
    ∀ fuel (id : BlockId) (blocks : List BlockData),
      blocks.length + fuel = maxB + 1 →
      serve_loop chain gh gb gj dir maxB fuel id blocks
        = blocks.reverse ++ specWalk chain gh gb gj dir (fuel - 1) id := by
  intro fuel
  induction fuel with
  | zero =>
    intro id blocks _
    simp [serve_loop, specWalk]
  | succ f ih =>
    intro id blocks h
    cases hh : chain.header id with
    | none =>
      have hspec : specWalk chain gh gb gj dir f id = [] := by
        cases f with
        | zero => rfl
        | succ g => simp [specWalk, hh]
      simp [serve_loop, hh, hspec]
    | some header =>
      by_cases hmax : maxB ≤ blocks.length
      · have hf : f = 0 := by omega
        subst hf
        simp [serve_loop, hh, hmax, specWalk]
      · obtain ⟨g, rfl⟩ : ∃ g, f = g + 1 := ⟨f - 1, by omega⟩
        cases dir with
        | Ascending =>
          have hstep : serve_loop chain gh gb gj .Ascending maxB (g + 1 + 1) id blocks
              = serve_loop chain gh gb gj .Ascending maxB (g + 1)
                  (.number (header.number + 1))
                  (mk_block_data chain gh gb gj header :: blocks) := by
            simp [serve_loop, hh, hmax]
          rw [hstep, ih _ _ (by simp only [List.length_cons]; omega)]
          simp [specWalk, hh, List.append_assoc]
        | Descending =>
          by_cases h0 : header.number = 0
          · have hstep : serve_loop chain gh gb gj .Descending maxB (g + 1 + 1) id blocks
                = (mk_block_data chain gh gb gj header :: blocks).reverse := by
              simp [serve_loop, hh, hmax, h0]
            rw [hstep]
            simp [specWalk, hh, h0]
          · have hstep : serve_loop chain gh gb gj .Descending maxB (g + 1 + 1) id blocks
                = serve_loop chain gh gb gj .Descending maxB (g + 1)
                    (.number (header.number - 1))
                    (mk_block_data chain gh gb gj header :: blocks) := by
              simp [serve_loop, hh, hmax, h0]
            rw [hstep, ih _ _ (by simp only [List.length_cons]; omega)]
            simp [specWalk, hh, h0, List.append_assoc]

/- Transaction-gossip lemmas. -/

theorem mem_filter_new_mono : ∀ (txs : List (ExtrinsicHash × Tx))
    {known : List ExtrinsicHash} {x : ExtrinsicHash},
    x ∈ known → x ∈ (filter_new txs known).1 := by
  intro txs
  induction txs with
  | nil => intro known x hm; simpa [filter_new] using hm
  | cons hd rest ih =>
    intro known x hm
    obtain ⟨h, t⟩ := hd
    by_cases hk : h ∈ known
    · simp only [filter_new, if_pos hk]
      exact ih hm
    · simp only [filter_new, if_neg hk]
      exact ih (List.mem_cons_of_mem _ hm)

theorem fst_mem_filter_new : ∀ {txs : List (ExtrinsicHash × Tx)}
    {known : List ExtrinsicHash} {ht : ExtrinsicHash × Tx},
    ht ∈ txs → ht.1 ∈ (filter_new txs known).1 := by
  intro txs
  induction txs with
  | nil => intro known ht hm; simp at hm
  | cons hd rest ih =>
    intro known ht hm
    obtain ⟨h, t⟩ := hd
    rcases List.mem_cons.1 hm with rfl | hm'
    · by_cases hk : h ∈ known
      · simp only [filter_new, if_pos hk]
        exact mem_filter_new_mono rest hk
      · simp only [filter_new, if_neg hk]
        exact mem_filter_new_mono rest (List.mem_cons_self _ _)
    · by_cases hk : h ∈ known
      · simp only [filter_new, if_pos hk]
        exact ih hm'
      · simp only [filter_new, if_neg hk]
        exact ih hm'

theorem filter_new_all_known : ∀ {txs : List (ExtrinsicHash × Tx)}
    {known : List ExtrinsicHash},
    (∀ ht ∈ txs, ht.1 ∈ known) → filter_new txs known = (known, []) := by
  intro txs
  induction txs with
  | nil => intro known _; rfl
  | cons hd rest ih =>
    intro known h
    obtain ⟨hh, t⟩ := hd
    have h1 : hh ∈ known := h (hh, t) (List.mem_cons_self _ _)
    have h2 := fun y hy => h y (List.mem_cons_of_mem _ hy)
    simp only [filter_new, if_pos h1]
    exact ih h2

theorem propagate_loop_known (txs : List (ExtrinsicHash × Tx)) :
    ∀ peers, ∀ pp ∈ (propagate_loop txs peers).1, ∀ ht ∈ txs,
      ht.1 ∈ pp.2.known_extrinsics := by
  intro peers
  induction peers with
  | nil => intro pp hpp; simp [propagate_loop] at hpp
  | cons hd rest ih =>
    intro pp hpp ht hht
    obtain ⟨pid, p⟩ := hd
    simp only [propagate_loop] at hpp
    rcases List.mem_cons.1 hpp with rfl | h2
    · exact fst_mem_filter_new hht
    · exact ih pp h2 ht hht

theorem propagate_loop_twice (txs : List (ExtrinsicHash × Tx)) :
    ∀ peers, (propagate_loop txs (propagate_loop txs peers).1).2 = [] := by
  intro peers
  induction peers with
  | nil => rfl
  | cons hd rest ih =>
    obtain ⟨pid, p⟩ := hd
    have hall : ∀ ht ∈ txs, ht.1 ∈ (filter_new txs p.known_extrinsics).1 :=
      fun ht hht => fst_mem_filter_new hht
    have hfn := filter_new_all_known hall
    simp [propagate_loop, hfn, ih]

/-- C2 counterexample: a BlockRequest whose field mask holds the reserved
Receipt attribute makes on_block_request hit the unimplemented arm (the
none result models the process abort), refuting the claim that the
request is handled without a panic. -/
theorem C2_counterexample : on_block_request chain0 s0 0 1 reqR = none := by
  rfl

/-- C2 (amended): for every inbound BlockRequest whose field mask holds
the Receipt or MessageQueue attribute, on_block_request aborts the
process (the unimplemented arm); the peer is not disabled and no
response is produced. -/
theorem C2_reserved_fields_abort (chain : Client) (s : Protocol) (now : Nat)
    (pid : PeerId) (req : BlockRequest)
    (hm : BlockAttribute.Receipt ∈ req.fields
        ∨ BlockAttribute.MessageQueue ∈ req.fields) :
    on_block_request chain s now pid req = none := by
  simp [on_block_request, parse_fields_none hm]

/-- Witness for C2 at a concrete MessageQueue request. -/
theorem C2_witness : on_block_request chain0 s0 5 2 reqMQ = none :=
  C2_reserved_fields_abort chain0 s0 5 2 reqMQ (by decide)

/-- C3 counterexample: with the sync state not Idle, propagate_extrinsics
returns immediately, so a pool transaction hash does not enter a peer's
known_extrinsics set, refuting the claim as stated for arbitrary calls. -/
theorem C3_counterexample :
    (99, 7) ∈ pool3.transactions
    ∧ (propagate_extrinsics pool3 s3).1 = s3
    ∧ alLookup s3.peers 1 = some pE
    ∧ ¬ (99 ∈ pE.known_extrinsics) := by
  refine ⟨by decide, by rfl, by rfl, by decide⟩

/-- C3 (amended): when the sync state is Idle at call time, after
propagate_extrinsics every transaction hash in the pool snapshot is a
member of every table peer's known_extrinsics set. -/
theorem C3_propagate_marks_all_known (pool : TransactionPool) (s : Protocol)
    (hI : s.sync_state = SyncState.Idle) :
    ∀ ht ∈ pool.transactions, ∀ pp ∈ (propagate_extrinsics pool s).1.peers,
      ht.1 ∈ pp.2.known_extrinsics := by
  intro ht hht pp hpp
  have hcond : ¬ (s.sync_state ≠ SyncState.Idle) := by simp [hI]
  simp only [propagate_extrinsics, if_neg hcond] at hpp
  exact propagate_loop_known pool.transactions s.peers pp hpp ht hht

/-- Witness for C3 at a concrete Idle state. -/
theorem C3_witness : (42, 9).1 ∈ ((1, pEafter) : PeerId × Peer).2.known_extrinsics :=
  C3_propagate_marks_all_known pool3w s3w (by rfl) (42, 9) (by decide)
    (1, pEafter) (by decide)

/-- C9: propagate_extrinsics is idempotent: with the pool snapshot and
the peer table carried over unchanged, a second call emits no event at
all, in particular no Extrinsics send. -/
theorem C9_propagate_extrinsics_idempotent (pool : TransactionPool) (s : Protocol) :
    (propagate_extrinsics pool (propagate_extrinsics pool s).1).2 = [] := by
  by_cases hs : s.sync_state ≠ SyncState.Idle
  · simp [propagate_extrinsics, hs]
  · simp [propagate_extrinsics, hs, propagate_loop_twice]

/-- C10: on_extrinsics from a peer id absent from the active table leaves
the state unchanged and calls nothing: in particular no pool
insertion happens (no poolImport event) regardless of the sync state. -/
theorem C10_on_extrinsics_unknown_peer (pool : TransactionPool) (s : Protocol)
    (pid : PeerId) (txs : List Tx) (h : alLookup s.peers pid = none) :
    on_extrinsics pool s pid txs = (s, []) := by
  unfold on_extrinsics
  rw [h]
  split <;> rfl

/-- Witness for C10: a handshaking-only peer id. -/
theorem C10_witness :
    on_extrinsics pool0 { s0 with handshaking_peers := [(1, 0)] } 1 [5, 6]
      = ({ s0 with handshaking_peers := [(1, 0)] }, []) :=
  C10_on_extrinsics_unknown_peer pool0 _ 1 [5, 6] (by rfl)

/-- C4: an inbound BlockRequest restricted to the Header, Body and
Justification attributes is answered by exactly one BlockResponse send:
the state is unchanged, the response id echoes the request id, the block
list equals the specification walk (resolved start, Ascending advance to
number + 1, Descending advance to number - 1 terminating after emitting
number 0, truncation at the first absent header, hash always populated),
and its length is at most min(request.max or u32 max, 128). -/
theorem C4_block_server (chain : Client) (s : Protocol) (now : Nat)
    (pid : PeerId) (req : BlockRequest)
    (hf : ∀ a ∈ req.fields, a = BlockAttribute.Header ∨ a = BlockAttribute.Body
        ∨ a = BlockAttribute.Justification) :
    ∃ gh gb gj,
      on_block_request chain s now pid req = some (s,
        [Event.send pid (Message.BlockResponse
          { id := req.id,
            blocks := specWalk chain gh gb gj req.direction
              (min (req.max.getD u32max) MAX_BLOCK_DATA_RESPONSE)
              (resolve_from req.fromBlock) })])
      ∧ (specWalk chain gh gb gj req.direction
            (min (req.max.getD u32max) MAX_BLOCK_DATA_RESPONSE)
            (resolve_from req.fromBlock)).length
          ≤ min (req.max.getD u32max) MAX_BLOCK_DATA_RESPONSE := by
  obtain ⟨gh, gb, gj, hp⟩ := parse_fields_some false false false hf
  refine ⟨gh, gb, gj, ?_, specWalk_length chain gh gb gj req.direction _ _⟩
  have hob : on_block_request chain s now pid req = some (s,
      [Event.send pid (Message.BlockResponse
        { id := req.id,
          blocks := serve_loop chain gh gb gj req.direction
            (min (req.max.getD u32max) MAX_BLOCK_DATA_RESPONSE)
            (min (req.max.getD u32max) MAX_BLOCK_DATA_RESPONSE + 1)
            (resolve_from req.fromBlock) [] })]) := by
    unfold on_block_request
    rw [hp]
    rfl
  rw [hob, serve_loop_eq_specWalk chain gh gb gj req.direction
    (min (req.max.getD u32max) MAX_BLOCK_DATA_RESPONSE)
    (min (req.max.getD u32max) MAX_BLOCK_DATA_RESPONSE + 1)
    (resolve_from req.fromBlock) [] (by simp)]
  simp

/-- Witness for C4 on a three-header chain and a header-only ascending
request with max 3. -/
theorem C4_witness :
    ∃ gh gb gj,
      on_block_request chainW s0 0 1 reqW = some (s0,
        [Event.send 1 (Message.BlockResponse
          { id := reqW.id,
            blocks := specWalk chainW gh gb gj reqW.direction
              (min (reqW.max.getD u32max) MAX_BLOCK_DATA_RESPONSE)
              (resolve_from reqW.fromBlock) })])
      ∧ (specWalk chainW gh gb gj reqW.direction
            (min (reqW.max.getD u32max) MAX_BLOCK_DATA_RESPONSE)
            (resolve_from reqW.fromBlock)).length
          ≤ min (reqW.max.getD u32max) MAX_BLOCK_DATA_RESPONSE :=
  C4_block_server chainW s0 0 1 reqW (by decide)

/-- C1 counterexample: on a mismatched response id the stored outstanding
request does not remain unchanged: it is consumed (both the request and
its timestamp become none), refuting that conjunct of the claim; the
trace is still empty (no penalty, no forward). -/
theorem C1_counterexample :
    handle_packet chain0 pool0 s1c 10 false 1 (some (Message.BlockResponse resp8)) []
      = some ({ s1c with peers :=
          [(1, { p1c with block_request := none, request_timestamp := none })] }, [])
    ∧ p1c.block_request = some req7 :=
  ⟨by rfl, by rfl⟩

/-- C1 (amended): a BlockResponse from an active peer whose outstanding
request id differs from the response id is dropped with a trace only:
the outstanding request and its timestamp are consumed (cleared), and
the empty trace shows nothing is forwarded to ChainSync and the peer is
neither disconnected nor disabled. -/
theorem C1_mismatched_response_consumed (chain : Client) (pool : TransactionPool)
    (s : Protocol) (now : Nat) (expired : Bool) (pid : PeerId) (p : Peer)
    (req : BlockRequest) (resp : BlockResponse) (acts : List Action)
    (h1 : alLookup s.peers pid = some p) (h2 : p.block_request = some req)
    (h3 : req.id ≠ resp.id) :
    handle_packet chain pool s now expired pid
        (some (Message.BlockResponse resp)) acts
      = some ({ s with peers := alUpdate s.peers pid (fun q =>
          { q with request_timestamp := none, block_request := none }) }, []) := by
  simp only [handle_packet, h1, h2]
  rw [if_pos h3]

/-- Witness for C1 at the concrete mismatched state. -/
theorem C1_witness :
    handle_packet chain0 pool0 s1c 11 true 1 (some (Message.BlockResponse resp8)) []
      = some ({ s1c with peers := alUpdate s1c.peers 1 (fun q =>
          { q with request_timestamp := none, block_request := none }) }, []) :=
  C1_mismatched_response_consumed chain0 pool0 s1c 11 true 1 p1c req7 resp8 []
    (by rfl) (by rfl) (by decide)

/-- C6: a BlockResponse from a peer id absent from the table, or from an
active peer with no outstanding request, only disables the peer through
SyncIo: the trace is exactly the disable call (so nothing reaches
ChainSync) and the only state change is the clearing of the(already
empty) request slot when the peer exists. -/
theorem C6_unsolicited_response_disables (chain : Client) (pool : TransactionPool)
    (s : Protocol) (now : Nat) (expired : Bool) (pid : PeerId)
    (resp : BlockResponse) (acts : List Action)
    (h : (alLookup s.peers pid).bind Peer.block_request = none) :
    handle_packet chain pool s now expired pid
        (some (Message.BlockResponse resp)) acts
      = some ({ s with peers := alUpdate s.peers pid (fun q =>
          { q with request_timestamp := none, block_request := none }) },
        [Event.ioDisable pid]) := by
  cases hl : alLookup s.peers pid with
  | none =>
    rw [alUpdate_absent _ hl]
    simp only [handle_packet, hl]
  | some p =>
    have hb : p.block_request = none := by
      rw [hl] at h
      simpa using h
    simp only [handle_packet, hl, hb]

/-- Witness for C6: response from an unknown peer id. -/
theorem C6_witness :
    handle_packet chain0 pool0 s0 0 false 3 (some (Message.BlockResponse resp8)) []
      = some ({ s0 with peers := alUpdate s0.peers 3 (fun q =>
          { q with request_timestamp := none, block_request := none }) },
        [Event.ioDisable 3]) :=
  C6_unsolicited_response_disables chain0 pool0 s0 0 false 3 resp8 [] (by rfl)

/-- C5: a Status on a live session from a peer not yet active: a genesis
or version mismatch only disables the peer (the state is unchanged, so
the peer is not inserted, and the trace holds neither a Sync nor a
Consensus notification); otherwise the peer enters the table as a fresh
record (empty known sets, no outstanding request, counter zero), leaves
the handshaking table, and Sync new_peer and Consensus new_peer appear
in the trace exactly once each. -/
theorem C5_status_handshake (s : Protocol) (now : Nat) (pid : PeerId)
    (st : Status) (acts : List Action)
    (hp : alLookup s.peers pid = none) :
    ((st.genesis_hash ≠ s.genesis_hash ∨ st.version ≠ CURRENT_VERSION) →
      on_status_message s now false pid st acts = (s, [Event.ioDisable pid]))
    ∧ (st.genesis_hash = s.genesis_hash → st.version = CURRENT_VERSION →
      on_status_message s now false pid st acts
        = ({ s with
              peers := (flush_actions (alInsert s.peers pid (mk_fresh_peer st)) now acts).1,
              handshaking_peers := alRemove s.handshaking_peers pid },
           [Event.syncNewPeer pid, Event.consensusNewPeer pid st.roles]
             ++ (flush_actions (alInsert s.peers pid (mk_fresh_peer st)) now acts).2)
      ∧ alLookup (alInsert s.peers pid (mk_fresh_peer st)) pid = some (mk_fresh_peer st)
      ∧ (mk_fresh_peer st).block_request = none
      ∧ (mk_fresh_peer st).request_timestamp = none
      ∧ (mk_fresh_peer st).known_extrinsics = []
      ∧ (mk_fresh_peer st).known_blocks = []
      ∧ (mk_fresh_peer st).next_request_id = 0
      ∧ alLookup (alRemove s.handshaking_peers pid) pid = none
      ∧ countEvent (Event.syncNewPeer pid)
          (on_status_message s now false pid st acts).2 = 1
      ∧ countEvent (Event.consensusNewPeer pid st.roles)
          (on_status_message s now false pid st acts).2 = 1) := by
  have hps : (alLookup s.peers pid).isSome = false := by simp [hp]
  constructor
  · intro hmis
    by_cases hg : st.genesis_hash ≠ s.genesis_hash
    · simp [on_status_message, hps, hg]
    · have hge : st.genesis_hash = s.genesis_hash := not_not.1 hg
      have hv : st.version ≠ CURRENT_VERSION := by
        rcases hmis with h | h
        · exact absurd h hg
        · exact h
      simp [on_status_message, hps, hge, hv]
  · intro hg hv
    have heq : on_status_message s now false pid st acts
        = ({ s with
              peers := (flush_actions (alInsert s.peers pid (mk_fresh_peer st)) now acts).1,
              handshaking_peers := alRemove s.handshaking_peers pid },
           [Event.syncNewPeer pid, Event.consensusNewPeer pid st.roles]
             ++ (flush_actions (alInsert s.peers pid (mk_fresh_peer st)) now acts).2) := by
      simp [on_status_message, hps, hg, hv, mk_fresh_peer]
    have hflush0 : ∀ e, isIoEvent e = false →
        countEvent e (flush_actions (alInsert s.peers pid (mk_fresh_peer st)) now acts).2 = 0 := by
      intro e he
      apply countEvent_eq_zero
      intro x hx hxe
      subst hxe
      rw [flush_actions_events_io now acts _ x hx] at he
      exact absurd he (by decide)
    refine ⟨heq, alLookup_alInsert_self _ _ _, rfl, rfl, rfl, rfl, rfl,
      by rw [alLookup_alRemove]; simp, ?_, ?_⟩
    · rw [heq, countEvent_append, hflush0 _ (by rfl)]
      simp [countEvent]
    · rw [heq, countEvent_append, hflush0 _ (by rfl)]
      simp [countEvent]

/-- Witness for C5 at a concrete genesis-mismatch status. -/
theorem C5_witness : on_status_message s0 0 false 2 stBad [] = (s0, [Event.ioDisable 2]) :=
  (C5_status_handshake s0 0 2 stBad [] (by rfl)).1 (Or.inl (by decide))

/- Timeout-maintenance lemmas (for tick). -/

theorem option_isSome_false {α : Type} {o : Option α} (h : o.isSome = false) :
    o = none := by
  cases o with
  | none => rfl
  | some v => simp at h

theorem opd_eq_of_present {s : Protocol} {now : Nat} {pid : PeerId}
    {acts : List Action} (hr : (alLookup s.peers pid).isSome = true) :
    on_peer_disconnected s now pid acts
      = ({ s with peers := (flush_actions (alRemove s.peers pid) now acts).1,
                  handshaking_peers := alRemove s.handshaking_peers pid },
         [Event.consensusPeerDisconnected pid, Event.syncPeerDisconnected pid]
           ++ (flush_actions (alRemove s.peers pid) now acts).2) := by
  simp [on_peer_disconnected, hr]

theorem opd_eq_of_absent {s : Protocol} {now : Nat} {pid : PeerId}
    {acts : List Action} (hr : (alLookup s.peers pid).isSome = false) :
    on_peer_disconnected s now pid acts
      = ({ s with peers := alRemove s.peers pid,
                  handshaking_peers := alRemove s.handshaking_peers pid }, []) := by
  simp [on_peer_disconnected, hr]

theorem opd_handshaking (s : Protocol) (now : Nat) (pid : PeerId)
    (acts : List Action) :
    (on_peer_disconnected s now pid acts).1.handshaking_peers
      = alRemove s.handshaking_peers pid := by
  cases hr : (alLookup s.peers pid).isSome with
  | true => rw [opd_eq_of_present hr]
  | false => rw [opd_eq_of_absent hr]

theorem opd_peers_self (s : Protocol) (now : Nat) (pid : PeerId)
    (acts : List Action) :
    alLookup (on_peer_disconnected s now pid acts).1.peers pid = none := by
  cases hr : (alLookup s.peers pid).isSome with
  | true =>
    rw [opd_eq_of_present hr]
    exact flush_actions_lookup_none (by rw [alLookup_alRemove]; simp)
  | false =>
    rw [opd_eq_of_absent hr]
    show alLookup (alRemove s.peers pid) pid = none
    rw [alLookup_alRemove]
    simp

theorem opd_peers_isSome_other (s : Protocol) (now : Nat) (pid : PeerId)
    (acts : List Action) (key : PeerId) (hne : key ≠ pid) :
    (alLookup (on_peer_disconnected s now pid acts).1.peers key).isSome
      = (alLookup s.peers key).isSome := by
  cases hr : (alLookup s.peers pid).isSome with
  | true =>
    rw [opd_eq_of_present hr]
    show (alLookup (flush_actions (alRemove s.peers pid) now acts).1 key).isSome
      = (alLookup s.peers key).isSome
    rw [flush_actions_lookup_isSome, alLookup_alRemove]
    simp [hne]
  | false =>
    rw [opd_eq_of_absent hr]
    show (alLookup (alRemove s.peers pid) key).isSome = (alLookup s.peers key).isSome
    rw [alLookup_alRemove]
    simp [hne]

theorem opd_events_of_present (s : Protocol) (now : Nat) (pid : PeerId)
    (acts : List Action) (hr : (alLookup s.peers pid).isSome = true) :
    Event.consensusPeerDisconnected pid ∈ (on_peer_disconnected s now pid acts).2
    ∧ Event.syncPeerDisconnected pid ∈ (on_peer_disconnected s now pid acts).2 := by
  rw [opd_eq_of_present hr]
  simp

theorem dl_peers_none (now : Nat) (cb : PeerId → List Action) :
    ∀ (l : List PeerId) (s : Protocol) (key : PeerId),
      alLookup s.peers key = none →
      alLookup (disconnect_loop now cb s l).1.peers key = none := by
  intro l
  induction l with
  | nil => intro s key h; exact h
  | cons q rest ih =>
    intro s key h
    simp only [disconnect_loop]
    apply ih
    by_cases hqk : key = q
    · subst hqk
      exact opd_peers_self s now key (cb key)
    · apply option_isSome_false
      rw [opd_peers_isSome_other s now q (cb q) key hqk, h]
      rfl

theorem dl_hs_none (now : Nat) (cb : PeerId → List Action) :
    ∀ (l : List PeerId) (s : Protocol) (key : PeerId),
      alLookup s.handshaking_peers key = none →
      alLookup (disconnect_loop now cb s l).1.handshaking_peers key = none := by
  intro l
  induction l with
  | nil => intro s key h; exact h
  | cons q rest ih =>
    intro s key h
    simp only [disconnect_loop]
    apply ih
    rw [opd_handshaking, alLookup_alRemove]
    by_cases hqk : key = q
    · simp [hqk]
    · simp [hqk, h]

theorem dl_removes (now : Nat) (cb : PeerId → List Action) :
    ∀ (l : List PeerId) (s : Protocol) (pid : PeerId), pid ∈ l →
      (alLookup s.peers pid).isSome = true →
      alLookup (disconnect_loop now cb s l).1.peers pid = none
      ∧ Event.syncPeerDisconnected pid ∈ (disconnect_loop now cb s l).2
      ∧ Event.consensusPeerDisconnected pid ∈ (disconnect_loop now cb s l).2 := by
  intro l
  induction l with
  | nil => intro s pid h; simp at h
  | cons q rest ih =>
    intro s pid hmem hsome
    simp only [disconnect_loop]
    by_cases hq : q = pid
    · subst hq
      have hev := opd_events_of_present s now q (cb q) hsome
      refine ⟨?_, ?_, ?_⟩
      · exact dl_peers_none now cb rest _ q (opd_peers_self s now q (cb q))
      · exact List.mem_append_left _ hev.2
      · exact List.mem_append_left _ hev.1
    · have hmem' : pid ∈ rest := by
        rcases List.mem_cons.1 hmem with h | h
        · exact absurd h.symm hq
        · exact h
      have hsome' : (alLookup (on_peer_disconnected s now q (cb q)).1.peers pid).isSome = true := by
        rw [opd_peers_isSome_other s now q (cb q) pid (fun h => hq h.symm)]
        exact hsome
      obtain ⟨h1, h2, h3⟩ := ih _ pid hmem' hsome'
      exact ⟨h1, List.mem_append_right _ h2, List.mem_append_right _ h3⟩

theorem dl_removes_hs (now : Nat) (cb : PeerId → List Action) :
    ∀ (l : List PeerId) (s : Protocol) (pid : PeerId), pid ∈ l →
      alLookup (disconnect_loop now cb s l).1.handshaking_peers pid = none := by
  intro l
  induction l with
  | nil => intro s pid h; simp at h
  | cons q rest ih =>
    intro s pid hmem
    simp only [disconnect_loop]
    by_cases hq : q = pid
    · subst hq
      apply dl_hs_none
      rw [opd_handshaking, alLookup_alRemove]
      simp
    · have hmem' : pid ∈ rest := by
        rcases List.mem_cons.1 hmem with h | h
        · exact absurd h.symm hq
        · exact h
      exact ih _ pid hmem'

theorem mem_collect_victims_active {s : Protocol} {now : Nat} {pid : PeerId}
    {p : Peer} {ts : Nat}
    (h1 : alLookup s.peers pid = some p) (h2 : p.request_timestamp = some ts)
    (h3 : timed_out now ts = true) : pid ∈ collect_victims s now := by
  unfold collect_victims
  apply List.mem_filterMap.2
  refine ⟨(pid, ts), ?_, by simp [h3]⟩
  apply List.mem_append_left
  apply List.mem_filterMap.2
  exact ⟨(pid, p), alLookup_mem h1, by simp [h2]⟩

theorem mem_collect_victims_hs {s : Protocol} {now : Nat} {pid : PeerId} {ts : Nat}
    (h1 : alLookup s.handshaking_peers pid = some ts)
    (h3 : timed_out now ts = true) : pid ∈ collect_victims s now := by
  unfold collect_victims
  apply List.mem_filterMap.2
  exact ⟨(pid, ts), List.mem_append_right _ (alLookup_mem h1), by simp [h3]⟩

/-- C8: tick disconnects every active peer whose request timestamp is
more than 40 seconds old and every handshaking peer whose first-seen
timestamp is more than 40 seconds old: the SyncIo disconnect appears in
the trace, the peer leaves its table, and for an active peer the Sync
and Consensus peer_disconnected notifications appear in the trace. -/
theorem C8_tick_timeouts (s : Protocol) (now : Nat) (cb : PeerId → List Action)
    (pid : PeerId) :
    (∀ p ts, alLookup s.peers pid = some p → p.request_timestamp = some ts →
      REQUEST_TIMEOUT_SEC < now - ts →
      Event.ioDisconnect pid ∈ (tick s now cb).2
      ∧ alLookup (tick s now cb).1.peers pid = none
      ∧ Event.syncPeerDisconnected pid ∈ (tick s now cb).2
      ∧ Event.consensusPeerDisconnected pid ∈ (tick s now cb).2)
    ∧ (∀ ts, alLookup s.handshaking_peers pid = some ts →
      REQUEST_TIMEOUT_SEC < now - ts →
      Event.ioDisconnect pid ∈ (tick s now cb).2
      ∧ alLookup (tick s now cb).1.handshaking_peers pid = none) := by
  have htick1 : (tick s now cb).1 = (disconnect_loop now cb s (collect_victims s now)).1 := rfl
  have htick2 : (tick s now cb).2
      = ((collect_victims s now).map Event.ioDisconnect
          ++ (disconnect_loop now cb s (collect_victims s now)).2)
        ++ [Event.consensusCollectGarbage] := rfl
  constructor
  · intro p ts h1 h2 h3
    have ht : timed_out now ts = true := by simp [timed_out]; exact h3
    have hv : pid ∈ collect_victims s now := mem_collect_victims_active h1 h2 ht
    have hsome : (alLookup s.peers pid).isSome = true := by rw [h1]; rfl
    obtain ⟨hnone, hsy, hco⟩ := dl_removes now cb (collect_victims s now) s pid hv hsome
    refine ⟨?_, ?_, ?_, ?_⟩
    · rw [htick2]
      exact List.mem_append_left _ (List.mem_append_left _
        (List.mem_map.2 ⟨pid, hv, rfl⟩))
    · rw [htick1]
      exact hnone
    · rw [htick2]
      exact List.mem_append_left _ (List.mem_append_right _ hsy)
    · rw [htick2]
      exact List.mem_append_left _ (List.mem_append_right _ hco)
  · intro ts h1 h3
    have ht : timed_out now ts = true := by simp [timed_out]; exact h3
    have hv : pid ∈ collect_victims s now := mem_collect_victims_hs h1 ht
    refine ⟨?_, ?_⟩
    · rw [htick2]
      exact List.mem_append_left _ (List.mem_append_left _
        (List.mem_map.2 ⟨pid, hv, rfl⟩))
    · rw [htick1]
      exact dl_removes_hs now cb (collect_victims s now) s pid hv

/-- Witness for C8 at a concrete stale state (request stamped at 5,
handshake at 3, tick at 100). -/
theorem C8_witness :
    (Event.ioDisconnect 1 ∈ (tick s8 100 (fun _ => [])).2
      ∧ alLookup (tick s8 100 (fun _ => [])).1.peers 1 = none
      ∧ Event.syncPeerDisconnected 1 ∈ (tick s8 100 (fun _ => [])).2
      ∧ Event.consensusPeerDisconnected 1 ∈ (tick s8 100 (fun _ => [])).2)
    ∧ (Event.ioDisconnect 2 ∈ (tick s8 100 (fun _ => [])).2
      ∧ alLookup (tick s8 100 (fun _ => [])).1.handshaking_peers 2 = none) :=
  ⟨(C8_tick_timeouts s8 100 (fun _ => []) 1).1 p8 5 (by rfl) (by rfl) (by decide),
   (C8_tick_timeouts s8 100 (fun _ => []) 2).2 3 (by rfl) (by decide)⟩

/- Invariant-preservation lemmas (claim C7). -/

theorem invTable_alRemove {l : List (PeerId × Peer)} {k : Nat}
    (hl : InvTable l) : InvTable (alRemove l k) := by
  intro pp hpp
  exact hl pp (List.mem_of_mem_filter hpp)

theorem invTable_alInsert {l : List (PeerId × Peer)} {k : Nat} {v : Peer}
    (hl : InvTable l) (hv : invPeer v) : InvTable (alInsert l k v) := by
  intro pp hpp
  rcases List.mem_cons.1 hpp with rfl | h2
  · exact hv
  · exact hl pp (List.mem_of_mem_filter h2)

theorem invTable_alUpdate {l : List (PeerId × Peer)} {k : Nat} {f : Peer → Peer}
    (hl : InvTable l) (hf : ∀ p, invPeer p → invPeer (f p)) :
    InvTable (alUpdate l k f) := by
  intro pp hpp
  simp only [alUpdate] at hpp
  rcases List.mem_map.1 hpp with ⟨kv, hkv, heq⟩
  by_cases hk : kv.1 = k
  · rw [if_pos hk] at heq
    subst heq
    exact hf _ (hl kv hkv)
  · rw [if_neg hk] at heq
    subst heq
    exact hl kv hkv

theorem invTable_send_message {peers : List (PeerId × Peer)} {now : Nat}
    {pid : PeerId} {m : Message} (hl : InvTable peers) :
    InvTable (send_message peers now pid m).1 := by
  cases m with
  | BlockRequest r =>
    cases h : alLookup peers pid with
    | none => simpa [send_message, h] using hl
    | some peer =>
      simp only [send_message, h]
      exact invTable_alUpdate hl (fun p _ => by simp [invPeer])
  | Status st => exact hl
  | BlockResponse r => exact hl
  | BlockAnnounce a => exact hl
  | BftMessage m => exact hl
  | Extrinsics ts => exact hl
  | ChainSpecific d => exact hl

theorem invTable_flush (now : Nat) (acts : List Action) :
    ∀ peers, InvTable peers → InvTable (flush_actions peers now acts).1 := by
  induction acts with
  | nil => intro peers h; exact h
  | cons a rest ih =>
    cases a with
    | message pid m => intro peers h; exact ih _ (invTable_send_message h)
    | disconnect pid => intro peers h; exact ih _ h
    | disable pid => intro peers h; exact ih _ h

theorem inv_on_status_message {s : Protocol} {now : Nat} {expired : Bool}
    {pid : PeerId} {st : Status} {acts : List Action} (h : Inv s) :
    Inv (on_status_message s now expired pid st acts).1 := by
  unfold on_status_message Inv
  split
  · exact h
  split
  · exact h
  split
  · exact h
  split
  · exact h
  · exact invTable_flush now acts _ (invTable_alInsert h rfl)

theorem inv_on_block_response {s : Protocol} {now : Nat} {pid : PeerId}
    {req : BlockRequest} {resp : BlockResponse} {acts : List Action} (h : Inv s) :
    Inv (on_block_response s now pid req resp acts).1 :=
  invTable_flush now acts _ h

theorem inv_on_bft_message {s : Protocol} {now : Nat} {pid : PeerId} {m : Nat}
    {acts : List Action} (h : Inv s) :
    Inv (on_bft_message s now pid m acts).1 :=
  invTable_flush now acts _ h

theorem inv_on_chain_specific {s : Protocol} {now : Nat} {pid : PeerId}
    {d : List Nat} {acts : List Action} (h : Inv s) :
    Inv (on_chain_specific s now pid d acts).1 :=
  invTable_flush now acts _ h

theorem inv_on_block_announce {s : Protocol} {now : Nat} {pid : PeerId}
    {a : BlockAnnounce} {acts : List Action} (h : Inv s) :
    Inv (on_block_announce s now pid a acts).1 :=
  invTable_flush now acts _ (invTable_alUpdate h (fun _ hp => hp))

theorem inv_on_extrinsics {pool : TransactionPool} {s : Protocol} {pid : PeerId}
    {txs : List Tx} (h : Inv s) :
    Inv (on_extrinsics pool s pid txs).1 := by
  unfold on_extrinsics
  split
  · exact h
  · cases hl : alLookup s.peers pid with
    | none => exact h
    | some peer =>
      show InvTable (alUpdate s.peers pid (fun p =>
        { p with known_extrinsics := (import_loop pool txs peer.known_extrinsics).1 }))
      exact invTable_alUpdate h (fun _ hp => hp)

theorem inv_propagate_loop (txs : List (ExtrinsicHash × Tx)) :
    ∀ peers, InvTable peers → InvTable (propagate_loop txs peers).1 := by
  intro peers
  induction peers with
  | nil => intro h; exact h
  | cons hd rest ih =>
    obtain ⟨pid, p⟩ := hd
    intro h pp hpp
    simp only [propagate_loop] at hpp
    rcases List.mem_cons.1 hpp with rfl | h2
    · exact h (pid, p) (List.mem_cons_self _ _)
    · exact ih (fun q hq => h q (List.mem_cons_of_mem _ hq)) pp h2

theorem inv_propagate_extrinsics {pool : TransactionPool} {s : Protocol}
    (h : Inv s) : Inv (propagate_extrinsics pool s).1 := by
  unfold propagate_extrinsics Inv
  split
  · exact h
  · exact inv_propagate_loop _ _ h

theorem inv_announce_loop (hash : HeaderHash) (header : Header) :
    ∀ peers, InvTable peers → InvTable (announce_loop hash header peers).1 := by
  intro peers
  induction peers with
  | nil => intro h; exact h
  | cons hd rest ih =>
    obtain ⟨pid, p⟩ := hd
    intro h pp hpp
    simp only [announce_loop] at hpp
    by_cases hk : hash ∈ p.known_blocks
    · rw [if_pos hk] at hpp
      rcases List.mem_cons.1 hpp with rfl | h2
      · exact h (pid, p) (List.mem_cons_self _ _)
      · exact ih (fun q hq => h q (List.mem_cons_of_mem _ hq)) pp h2
    · rw [if_neg hk] at hpp
      rcases List.mem_cons.1 hpp with rfl | h2
      · exact h (pid, p) (List.mem_cons_self _ _)
      · exact ih (fun q hq => h q (List.mem_cons_of_mem _ hq)) pp h2

theorem inv_on_block_imported {s : Protocol} {hash : HeaderHash} {header : Header}
    (h : Inv s) : Inv (on_block_imported s hash header).1 :=
  inv_announce_loop hash header _ h

theorem inv_on_peer_connected {chain : Client} {s : Protocol} {now : Nat}
    {pid : PeerId} (h : Inv s) :
    Inv (on_peer_connected chain s now pid).1 := by
  unfold on_peer_connected
  show InvTable (send_status chain
    { s with handshaking_peers := alInsert s.handshaking_peers pid now } now pid).1
  unfold send_status
  cases hi : chain.info with
  | none => exact h
  | some info =>
    simp only [hi]
    exact invTable_send_message h

theorem inv_on_peer_disconnected {s : Protocol} {now : Nat} {pid : PeerId}
    {acts : List Action} (h : Inv s) :
    Inv (on_peer_disconnected s now pid acts).1 := by
  cases hr : (alLookup s.peers pid).isSome with
  | true =>
    rw [opd_eq_of_present hr]
    exact invTable_flush now acts _ (invTable_alRemove h)
  | false =>
    rw [opd_eq_of_absent hr]
    exact invTable_alRemove h

theorem inv_disconnect_loop (now : Nat) (cb : PeerId → List Action) :
    ∀ (l : List PeerId) (s : Protocol), Inv s → Inv (disconnect_loop now cb s l).1 := by
  intro l
  induction l with
  | nil => intro s h; exact h
  | cons q rest ih => intro s h; exact ih _ (inv_on_peer_disconnected h)

theorem inv_tick {s : Protocol} {now : Nat} {cb : PeerId → List Action}
    (h : Inv s) : Inv (tick s now cb).1 :=
  inv_disconnect_loop now cb _ s h

theorem inv_abort (s : Protocol) : Inv (abort s).1 := by
  intro pp hpp
  simp [abort] at hpp

theorem inv_protocol_send_message {s : Protocol} {now : Nat} {pid : PeerId}
    {m : Message} (h : Inv s) : Inv (protocol_send_message s now pid m).1 :=
  invTable_send_message h

theorem inv_of_eq {X : Protocol × List Event} {s' : Protocol} {ev : List Event}
    (hres : some X = some (s', ev)) (h : Inv X.1) : Inv s' := by
  have h1 : X = (s', ev) := Option.some.inj hres
  subst h1
  exact h

theorem inv_handle_packet {chain : Client} {pool : TransactionPool} {s : Protocol}
    {now : Nat} {expired : Bool} {pid : PeerId} {data : Option Message}
    {acts : List Action} {s' : Protocol} {ev : List Event} (h : Inv s)
    (hres : handle_packet chain pool s now expired pid data acts = some (s', ev)) :
    Inv s' := by
  cases data with
  | none =>
    simp only [handle_packet] at hres
    exact inv_of_eq hres h
  | some m =>
    cases m with
    | Status st =>
      simp only [handle_packet] at hres
      exact inv_of_eq hres (inv_on_status_message h)
    | BlockRequest r =>
      simp only [handle_packet] at hres
      unfold on_block_request at hres
      cases hp : parse_fields r.fields false false false with
      | none =>
        rw [hp] at hres
        simp at hres
      | some t =>
        obtain ⟨gh, gb, gj⟩ := t
        rw [hp] at hres
        exact inv_of_eq hres (invTable_send_message h)
    | BlockResponse r =>
      simp only [handle_packet] at hres
      cases hl : alLookup s.peers pid with
      | none =>
        simp only [hl] at hres
        exact inv_of_eq hres h
      | some peer =>
        simp only [hl] at hres
        cases hb : peer.block_request with
        | none =>
          simp only [hb] at hres
          exact inv_of_eq hres (invTable_alUpdate
            (f := fun q => { q with request_timestamp := none, block_request := none })
            h (fun _ _ => rfl))
        | some request =>
          simp only [hb] at hres
          by_cases hid : request.id ≠ r.id
          · rw [if_pos hid] at hres
            exact inv_of_eq hres (invTable_alUpdate
              (f := fun q => { q with request_timestamp := none, block_request := none })
              h (fun _ _ => rfl))
          · rw [if_neg hid] at hres
            exact inv_of_eq hres (inv_on_block_response (invTable_alUpdate
              (f := fun q => { q with request_timestamp := none, block_request := none })
              h (fun _ _ => rfl)))
    | BlockAnnounce a =>
      simp only [handle_packet] at hres
      exact inv_of_eq hres (inv_on_block_announce h)
    | BftMessage m' =>
      simp only [handle_packet] at hres
      exact inv_of_eq hres (inv_on_bft_message h)
    | Extrinsics txs =>
      simp only [handle_packet] at hres
      exact inv_of_eq hres (inv_on_extrinsics h)
    | ChainSpecific d =>
      simp only [handle_packet] at hres
      exact inv_of_eq hres (inv_on_chain_specific h)

/-- C7: the per-peer equivalence block_request.isSome = request_timestamp.isSome
holds for every table peer and is preserved by every public entry point:
handle_packet (when it returns), send_message, on_peer_connected,
on_peer_disconnected, tick, abort, propagate_extrinsics,
on_block_imported and on_block_announce. -/
theorem C7_request_timestamp_invariant (s : Protocol) (h : Inv s) :
    (∀ chain pool now expired pid data acts s' ev,
      handle_packet chain pool s now expired pid data acts = some (s', ev) → Inv s')
    ∧ (∀ now pid m, Inv (protocol_send_message s now pid m).1)
    ∧ (∀ chain now pid, Inv (on_peer_connected chain s now pid).1)
    ∧ (∀ now pid acts, Inv (on_peer_disconnected s now pid acts).1)
    ∧ (∀ now cb, Inv (tick s now cb).1)
    ∧ Inv (abort s).1
    ∧ (∀ pool, Inv (propagate_extrinsics pool s).1)
    ∧ (∀ hash hdr, Inv (on_block_imported s hash hdr).1)
    ∧ (∀ now pid a acts, Inv (on_block_announce s now pid a acts).1) :=
  ⟨fun _ _ _ _ _ _ _ _ _ hres => inv_handle_packet h hres,
   fun _ _ _ => inv_protocol_send_message h,
   fun _ _ _ => inv_on_peer_connected h,
   fun _ _ _ => inv_on_peer_disconnected h,
   fun _ _ => inv_tick h,
   inv_abort s,
   fun _ => inv_propagate_extrinsics h,
   fun _ _ => inv_on_block_imported h,
   fun _ _ _ _ => inv_on_block_announce h⟩

/-- Witness for C7: the invariant holds of the concrete state s1c and is
carried through abort. -/
theorem C7_witness : Inv (abort s1c).1 :=
  (C7_request_timestamp_invariant s1c (by decide)).2.2.2.2.2.1

end SubstrateNetwork
